import Mathlib

/-!
Shallow embedding of `my-dependencies-rs` (`src/lib.rs`): a build-script
helper that enumerates the dependencies active for the current build.

The environment (`std::env::var` / `var_os`) is modelled as a read-only
lookup `Env : String → Option String`.  The manifest (parsed by the
external `cargo_toml` collaborator) is modelled as a structure of lists;
the `syn` predicate parser is modelled as an oracle
`parse : String → Option MetaListData`.  A Rust `panic!`/`unwrap` failure
is modelled as `none` in the `Option`-returning embedding of the function
that panics.
-/

namespace MyDeps

/-- Environment lookup: `std::env::var` returning `some` on success. -/
def Env : Type := String → Option String

/-- `syn::Lit` restricted to what `check_cfg` distinguishes: a string
literal, or anything else (`syn::Lit::Str(s) => .. , _ => ..`). -/
inductive Lit where
  | str (s : String)
  | other
deriving DecidableEq

/-- `syn::NestedMeta` (and the `syn::Meta` inside its `Meta` variant).
`litArg` is `NestedMeta::Lit(_)`; the three `meta*` constructors are
`Meta::Path`, `Meta::List` and `Meta::NameValue`.  The `Option String`
component is the result of `path.get_ident()` (`none` when the path is
not a single identifier). -/
inductive NestedMeta where
  | litArg (l : Lit)
  | metaPath (ident : Option String)
  | metaList (ident : Option String) (nested : List NestedMeta)
  | metaNameValue (ident : Option String) (lit : Lit)

/-- The fields of the root `syn::MetaList` that `check_cfg_root` uses. -/
structure MetaListData where
  nested : List NestedMeta

mutual

/-- `check_cfg` from `src/lib.rs` (lines 215-269): evaluate one
`cfg`-predicate node against the environment.  `none` models the Rust
`return None` paths. -/
def check_cfg (env : Env) : NestedMeta → Option Bool
  | .litArg _ => none
  | .metaPath _ => none
  | .metaList none _ => none
  | .metaList (some i) nested =>
      if i = "any" then check_cfg_any env nested
      else if i = "not" then check_cfg_not env nested
      else if i = "all" then check_cfg_all env nested
      else none
  | .metaNameValue none _ => none
  | .metaNameValue (some i) lit =>
      match lit with
      | .str v => some (env ("CARGO_CFG_" ++ i) == some v)
      | .other => none

/-- The `any(...)` loop of `check_cfg`: stop with `some true` at the first
true sub-expression, propagate the first `none`, else `some false`. -/
def check_cfg_any (env : Env) : List NestedMeta → Option Bool
  | [] => some false
  | e :: es =>
      match check_cfg env e with
      | none => none
      | some true => some true
      | some false => check_cfg_any env es

/-- The `not(...)` branch of `check_cfg`: exactly one argument, whose
result is negated (`none` on a wrong argument count or an unevaluable
argument). -/
def check_cfg_not (env : Env) : List NestedMeta → Option Bool
  | [e] =>
      match check_cfg env e with
      | none => none
      | some v => some (!v)
  | _ => none

/-- The `all(...)` loop of `check_cfg`: stop with `some false` at the first
false sub-expression, propagate the first `none`, else `some true`. -/
def check_cfg_all (env : Env) : List NestedMeta → Option Bool
  | [] => some true
  | e :: es =>
      match check_cfg env e with
      | none => none
      | some false => some false
      | some true => check_cfg_all env es

end

/-- `check_cfg_root` (lines 207-214): the outer `cfg(...)` must carry
exactly one argument. -/
def check_cfg_root (env : Env) (ml : MetaListData) : Option Bool :=
  match ml.nested with
  | [e] => check_cfg env e
  | _ => none

/-- `GitRev` from `src/lib.rs`. -/
inductive GitRev where
  | Master
  | Branch (name : String)
  | Tag (name : String)
  | Revision (rev : String)
deriving DecidableEq

/-- `DepSource` from `src/lib.rs`. -/
inductive DepSource where
  | Git (url : String) (revision : GitRev)
  | Path (p : String)
  | CratesIo (version : String)
  | Unknown
deriving DecidableEq

/-- `ActiveDependency` from `src/lib.rs`.  The `HashSet<String>` of
features is modelled as a `List String` into which insertion adds an
element only when it is not already present. -/
structure ActiveDependency where
  source : DepSource
  include_default_features : Bool
  features : List String
deriving DecidableEq

/-- The fields of `cargo_toml::DependencyDetail` that `get_activedep`
reads. -/
structure DependencyDetail where
  version : Option String := none
  path : Option String := none
  git : Option String := none
  rev : Option String := none
  tag : Option String := none
  branch : Option String := none
  optional : Bool := false
  default_features : Bool := true
  features : List String := []
deriving DecidableEq

/-- The fields of `cargo_toml::InheritedDependencyDetail` that
`get_activedep` reads. -/
structure InheritedDependencyDetail where
  optional : Bool := false
  features : List String := []
deriving DecidableEq

/-- `cargo_toml::Dependency`. -/
inductive Dependency where
  | Simple (version : String)
  | Inherited (details : InheritedDependencyDetail)
  | Detailed (details : DependencyDetail)
deriving DecidableEq

/-- The manifest data `enumerate` consumes, as handed back by the
`cargo_toml` collaborator: feature table, unconditional dependencies and
the per-target dependency groups, each as ordered association lists. -/
structure Manifest where
  features : List (String × List String)
  dependencies : List (String × Dependency)
  target : List (String × List (String × Dependency))
deriving DecidableEq

/-- `HashSet<String>::insert`: add `x` unless already present. -/
def hsInsert (s : List String) (x : String) : List String :=
  if x ∈ s then s else s ++ [x]

/-- Lookup in an association list (`HashMap::get`), first match. -/
def alookup {β : Type} (k : String) : List (String × β) → Option β
  | [] => none
  | (k', v) :: rest => if k' = k then some v else alookup k rest

/-- `HashMap::insert`: replace the entry for `k` or append a new one. -/
def ainsert {β : Type} (rv : List (String × β)) (k : String) (v : β) :
    List (String × β) :=
  match rv with
  | [] => [(k, v)]
  | (k', v') :: rest =>
      if k' = k then (k, v) :: rest else (k', v') :: ainsert rest k v

/-- `dep_features.entry(dep).or_default().insert(f)`. -/
def featInsert : List (String × List String) → String → String →
    List (String × List String)
  | [], dep, f => [(dep, [f])]
  | (k, v) :: rest, dep, f =>
      if k = dep then (k, hsInsert v f) :: rest
      else (k, v) :: featInsert rest dep f

/-- Rust `str::split('/')` as a structural function over the character
list (the separator is a single character, so every input yields at
least one part). -/
def splitSlashAux : List Char → List Char → List String
  | [], acc => [⟨acc.reverse⟩]
  | c :: cs, acc =>
      if c = '/' then (⟨acc.reverse⟩ : String) :: splitSlashAux cs []
      else splitSlashAux cs (c :: acc)

/-- `subfeat_desc.split('/')`. -/
def splitSlash (s : String) : List String :=
  splitSlashAux s.data []

/-- Lines 78-81: take the first two parts of the split; the second
`unwrap` panics (`none`) when there is no separator. -/
def splitSubfeat (s : String) : Option (String × String) :=
  match splitSlash s with
  | dep :: f :: _ => some (dep, f)
  | _ => none

/-- Record every directive of one enabled feature in the map; `none`
models the `unwrap` panic on a directive without a separator. -/
def addSubfeats (df : List (String × List String)) :
    List String → Option (List (String × List String))
  | [] => some df
  | s :: rest =>
      match splitSubfeat s with
      | none => none
      | some (dep, f) => addSubfeats (featInsert df dep f) rest

/-- Lines 71-85: build the feature-activation map from the manifest
feature table and the `CARGO_FEATURE_*` environment entries. -/
def buildDepFeatures (env : Env) :
    List (String × List String) → List (String × List String) →
    Option (List (String × List String))
  | [], df => some df
  | (feat_name, subfeats) :: rest, df =>
      if (env ("CARGO_FEATURE_" ++ feat_name)).isSome then
        match addSubfeats df subfeats with
        | none => none
        | some df' => buildDepFeatures env rest df'
      else buildDepFeatures env rest df

/-- `get_activedep` from `src/lib.rs` (lines 133-204). -/
def get_activedep (env : Env) (dep_features : List (String × List String))
    (depname : String) (dep_info : Dependency) : Option ActiveDependency :=
  match dep_info with
  | .Simple version_str =>
      some { source := .CratesIo version_str
             include_default_features := true
             features := (alookup depname dep_features).getD [] }
  | .Inherited details =>
      if details.optional && (env ("CARGO_FEATURE_" ++ depname)).isNone then
        none
      else
        some { source := .Unknown
               include_default_features := false
               features :=
                 details.features.foldl hsInsert
                   ((alookup depname dep_features).getD []) }
  | .Detailed details =>
      if details.optional && (env ("CARGO_FEATURE_" ++ depname)).isNone then
        none
      else
        let source :=
          match details.version with
          | some version_str => DepSource.CratesIo version_str
          | none =>
            match details.path with
            | some path => DepSource.Path path
            | none =>
              match details.git with
              | some url =>
                  DepSource.Git url
                    (match details.rev with
                     | some rev => GitRev.Revision rev
                     | none =>
                       match details.tag with
                       | some tag => GitRev.Tag tag
                       | none =>
                         match details.branch with
                         | some branch => GitRev.Branch branch
                         | none => GitRev.Master)
              | none => DepSource.Unknown
        some { source := source
               include_default_features := details.default_features
               features :=
                 details.features.foldl hsInsert
                   ((alookup depname dep_features).getD []) }

/-- `target_name.starts_with("cfg")` over character lists. -/
def beginsWithL : List Char → List Char → Bool
  | [], _ => true
  | _ :: _, [] => false
  | a :: as, b :: bs => a = b && beginsWithL as bs

/-- Rust `str::starts_with`. -/
def strBeginsWith (s pat : String) : Bool :=
  beginsWithL pat.data s.data

/-- Lines 100-115: decide whether one target-group key applies.  A key
beginning with `cfg` is parsed by the `syn` oracle; parse failure and an
unevaluable predicate both panic (`none`). -/
def targetGroupActive (env : Env) (parse : String → Option MetaListData)
    (current_target : String) (target_name : String) : Option Bool :=
  if strBeginsWith target_name "cfg" then
    match parse target_name with
    | none => none
    | some ml => check_cfg_root env ml
  else
    some (target_name == current_target)

/-- Lines 88-94 and 119-125: fold one dependency list into the result
map, inserting each declaration for which `get_activedep` yields a
record. -/
def processDeps (env : Env) (df : List (String × List String))
    (deps : List (String × Dependency))
    (rv : List (String × ActiveDependency)) :
    List (String × ActiveDependency) :=
  deps.foldl
    (fun rv p =>
      match get_activedep env df p.1 p.2 with
      | some ad => ainsert rv p.1 ad
      | none => rv)
    rv

/-- Lines 97-127: process the conditional-target groups in order; a
panic while deciding a group's activity aborts the whole enumeration. -/
def processTargets (env : Env) (parse : String → Option MetaListData)
    (df : List (String × List String)) (current_target : String) :
    List (String × List (String × Dependency)) →
    List (String × ActiveDependency) →
    Option (List (String × ActiveDependency))
  | [], rv => some rv
  | (target_name, target_deps) :: rest, rv =>
      match targetGroupActive env parse current_target target_name with
      | none => none
      | some active =>
          processTargets env parse df current_target rest
            (if active then processDeps env df target_deps rv else rv)

/-- `enumerate` from `src/lib.rs` (lines 52-130), as a function of the
environment, the `syn` parse oracle and the already-parsed manifest.
`none` models a panic (malformed directive, missing `TARGET`, cfg parse
or evaluation failure). -/
def enumerate (env : Env) (parse : String → Option MetaListData)
    (m : Manifest) : Option (List (String × ActiveDependency)) :=
  match buildDepFeatures env m.features [] with
  | none => none
  | some df =>
    let rv := processDeps env df m.dependencies []
    match env "TARGET" with
    | none => none
    | some current_target =>
        processTargets env parse df current_target m.target rv

/-- Uppercase one ASCII character (used only to state the spec's
"uppercased key" reading of the configuration lookup). -/
def upperChar (c : Char) : Char :=
  if 'a' ≤ c ∧ c ≤ 'z' then Char.ofNat (c.toNat - 32) else c

/-- Uppercase a string character by character (the spec's "uppercased,
prefixed form of the configuration name"). -/
def upperStr (s : String) : String :=
  ⟨s.data.map upperChar⟩

/-- Concrete environment in which the uppercased configuration key
`CARGO_CFG_TARGET_OS` is set to `linux` and nothing else is set. -/
def envUpperOnly : Env :=
  fun k => if k = "CARGO_CFG_TARGET_OS" then some "linux" else none

/-- Concrete environment with `CARGO_CFG_target_os = linux` (the exact,
non-uppercased key that the code queries). -/
def envOsLinux : Env :=
  fun k => if k = "CARGO_CFG_target_os" then some "linux" else none

/-- Concrete environment with `CARGO_CFG_target_os = linux`, for the
double-negation witness. -/
def envOsLinux9 : Env :=
  fun k => if k = "CARGO_CFG_target_os" then some "linux" else none

/-- Concrete empty environment. -/
def envEmpty : Env :=
  fun _ => none

/-- Concrete environment in which only the feature `f` is enabled. -/
def envFeatF : Env :=
  fun k => if k = "CARGO_FEATURE_f" then some "1" else none

/-- Concrete environment with nothing set, for the git-revision
witness. -/
def envNoFeat : Env :=
  fun _ => none

/-- Concrete detailed declaration with a git url and both a tag and a
branch (no explicit revision). -/
def dGitTagBranch : DependencyDetail :=
  { git := some "u", tag := some "t", branch := some "b" }

/-- A declaration entry is harmless for dependency `name`: it either
declares a different name, or is an optional `Detailed`/`Inherited`
declaration (a `Simple` declaration of `name` would always be
inserted). -/
def isDisabledOptionalDecl (name : String) (p : String × Dependency) : Bool :=
  (p.1 != name) ||
  (match p.2 with
   | .Detailed d => d.optional
   | .Inherited i => i.optional
   | .Simple _ => false)

/-- The `syn` oracle that parses nothing (no manifest key in the
concrete witnesses starts with `cfg`). -/
def parseNone : String → Option MetaListData :=
  fun _ => none

/-- Concrete environment with only `TARGET = t` set: no feature or
configuration entries. -/
def envTargetOnly : Env :=
  fun k => if k = "TARGET" then some "t" else none

/-- Concrete environment with only the enabling feature entry for the
dependency `opt` set. -/
def envFeatOpt : Env :=
  fun k => if k = "CARGO_FEATURE_opt" then some "1" else none

/-- Concrete optional detailed declaration. -/
def dOpt : DependencyDetail :=
  { optional := true }

/-- Concrete optional workspace-inherited declaration. -/
def iOpt : InheritedDependencyDetail :=
  { optional := true }

/-- Concrete manifest declaring the optional dependency `opt` both
unconditionally and in the target group `t`. -/
def mOptOnly : Manifest :=
  { features := []
    dependencies := [("opt", .Detailed dOpt)]
    target := [("t", [("opt", .Inherited iOpt)])] }

/-- Concrete environment with only `TARGET = tgt` set. -/
def envTargetTgt : Env :=
  fun k => if k = "TARGET" then some "tgt" else none

/-- Concrete manifest declaring `foo` unconditionally and again in the
literal target group `tgt`. -/
def mOverwrite : Manifest :=
  { features := []
    dependencies := [("foo", .Simple "1.0")]
    target := [("tgt", [("foo", .Simple "2.0")])] }

end MyDeps

namespace MyDeps

theorem check_cfg_any_eq (env : Env) (nested : List NestedMeta) :
    check_cfg env (.metaList (some "any") nested) = check_cfg_any env nested :=
  rfl

theorem check_cfg_all_eq (env : Env) (nested : List NestedMeta) :
    check_cfg env (.metaList (some "all") nested) = check_cfg_all env nested :=
  rfl

theorem check_cfg_not_eq (env : Env) (nested : List NestedMeta) :
    check_cfg env (.metaList (some "not") nested) = check_cfg_not env nested :=
  rfl

theorem check_cfg_any_append (env : Env) (pre l : List NestedMeta)
    (h : ∀ x ∈ pre, check_cfg env x = some false) :
    check_cfg_any env (pre ++ l) = check_cfg_any env l := by
  induction pre with
  | nil => rfl
  | cons a as ih =>
      have ha := h a (List.mem_cons_self a as)
      simp only [List.cons_append, check_cfg_any, ha]
      exact ih fun x hx => h x (List.mem_cons_of_mem a hx)

theorem check_cfg_all_append (env : Env) (pre l : List NestedMeta)
    (h : ∀ x ∈ pre, check_cfg env x = some true) :
    check_cfg_all env (pre ++ l) = check_cfg_all env l := by
  induction pre with
  | nil => rfl
  | cons a as ih =>
      have ha := h a (List.mem_cons_self a as)
      simp only [List.cons_append, check_cfg_all, ha]
      exact ih fun x hx => h x (List.mem_cons_of_mem a hx)

/-- C2: a `Simple(version)` declaration always yields a record with
source `CratesIo version`, default features included, and the features
taken from the activation map's entry for the name (empty when the map
has no entry). -/
theorem claim_C2 (env : Env) (df : List (String × List String))
    (depname version : String) :
    get_activedep env df depname (.Simple version) =
      some { source := .CratesIo version
             include_default_features := true
             features := (alookup depname df).getD [] } :=
  rfl

/-- C4 counterexample: the claim says the `name = "value"` leaf is decided
by looking up the uppercased, prefixed form of the name.  With only the
uppercased key `CARGO_CFG_TARGET_OS` set to the literal, the claim
predicts `some true`, but the code looks up `CARGO_CFG_target_os`
verbatim and returns `some false`. -/
theorem claim_C4_cex :
    envUpperOnly ("CARGO_CFG_" ++ upperStr "target_os") = some "linux" ∧
    check_cfg envUpperOnly (.metaNameValue (some "target_os") (.str "linux")) =
      some false := by
  decide

/-- C4 (amended): a `name = "value"` leaf with a string literal evaluates
to `some true` iff the environment lookup of `CARGO_CFG_` ++ name — the
name taken verbatim, with no case conversion — equals the literal
exactly, and to `some false` otherwise. -/
theorem claim_C4 (env : Env) (name lit : String) :
    check_cfg env (.metaNameValue (some name) (.str lit)) =
      some (env ("CARGO_CFG_" ++ name) == some lit) :=
  rfl

/-- C7: `any` short-circuits — after a prefix of false sub-expressions, a
true sub-expression decides the result `some true` and an unevaluable one
decides `none`, whatever the later siblings are; dually, `all`
short-circuits on the first false (`some false`) or unevaluable (`none`)
sub-expression after a prefix of true ones. -/
theorem claim_C7 (env : Env) (pre post : List NestedMeta) (e : NestedMeta) :
    ((∀ x ∈ pre, check_cfg env x = some false) →
       (check_cfg env e = some true →
          check_cfg env (.metaList (some "any") (pre ++ e :: post)) = some true) ∧
       (check_cfg env e = none →
          check_cfg env (.metaList (some "any") (pre ++ e :: post)) = none)) ∧
    ((∀ x ∈ pre, check_cfg env x = some true) →
       (check_cfg env e = some false →
          check_cfg env (.metaList (some "all") (pre ++ e :: post)) = some false) ∧
       (check_cfg env e = none →
          check_cfg env (.metaList (some "all") (pre ++ e :: post)) = none)) := by
  refine ⟨fun hpre => ⟨fun he => ?_, fun he => ?_⟩,
          fun hpre => ⟨fun he => ?_, fun he => ?_⟩⟩
  · rw [check_cfg_any_eq, check_cfg_any_append env pre _ hpre]
    simp [check_cfg_any, he]
  · rw [check_cfg_any_eq, check_cfg_any_append env pre _ hpre]
    simp [check_cfg_any, he]
  · rw [check_cfg_all_eq, check_cfg_all_append env pre _ hpre]
    simp [check_cfg_all, he]
  · rw [check_cfg_all_eq, check_cfg_all_append env pre _ hpre]
    simp [check_cfg_all, he]

/-- C7 witness: concrete short-circuits, with an unevaluable sibling
after the deciding sub-expression in every case. -/
theorem claim_C7_witness :
    check_cfg envOsLinux (.metaList (some "any")
      [.metaNameValue (some "target_os") (.str "win"),
       .metaNameValue (some "target_os") (.str "linux"),
       .metaPath none]) = some true ∧
    check_cfg envOsLinux (.metaList (some "any")
      [.metaNameValue (some "target_os") (.str "win"),
       .litArg .other,
       .metaPath none]) = none ∧
    check_cfg envOsLinux (.metaList (some "all")
      [.metaNameValue (some "target_os") (.str "linux"),
       .metaNameValue (some "target_os") (.str "win"),
       .metaPath none]) = some false ∧
    check_cfg envOsLinux (.metaList (some "all")
      [.metaNameValue (some "target_os") (.str "linux"),
       .litArg .other,
       .metaPath none]) = none :=
  ⟨((claim_C7 envOsLinux
        [.metaNameValue (some "target_os") (.str "win")] [.metaPath none]
        (.metaNameValue (some "target_os") (.str "linux"))).1
      (by decide)).1 (by decide),
   ((claim_C7 envOsLinux
        [.metaNameValue (some "target_os") (.str "win")] [.metaPath none]
        (.litArg .other)).1
      (by decide)).2 (by decide),
   ((claim_C7 envOsLinux
        [.metaNameValue (some "target_os") (.str "linux")] [.metaPath none]
        (.metaNameValue (some "target_os") (.str "win"))).2
      (by decide)).1 (by decide),
   ((claim_C7 envOsLinux
        [.metaNameValue (some "target_os") (.str "linux")] [.metaPath none]
        (.litArg .other)).2
      (by decide)).2 (by decide)⟩

/-- C8: `all()` with no sub-expression evaluates to `some true`; `any()`
with no sub-expression evaluates to `some false`. -/
theorem claim_C8 (env : Env) :
    check_cfg env (.metaList (some "all") []) = some true ∧
    check_cfg env (.metaList (some "any") []) = some false :=
  ⟨rfl, rfl⟩

/-- C9: for a `name = value` leaf on which the evaluator yields
`some b`, `not(not(leaf))` yields the same `some b`; and a `not(...)`
node with an argument count other than one yields `none`. -/
theorem claim_C9 (env : Env) (i : Option String) (l : Lit) (b : Bool)
    (h : check_cfg env (.metaNameValue i l) = some b) :
    check_cfg env (.metaList (some "not")
      [.metaList (some "not") [.metaNameValue i l]]) = some b ∧
    (∀ args : List NestedMeta, args.length ≠ 1 →
       check_cfg env (.metaList (some "not") args) = none) := by
  constructor
  · rw [check_cfg_not_eq]
    simp [check_cfg_not, check_cfg_not_eq, h]
  · intro args hargs
    rw [check_cfg_not_eq]
    match args with
    | [] => rfl
    | [a] => simp at hargs
    | a :: b :: rest => rfl

/-- C9 witness: double negation of a concrete true leaf is `some true`,
and `not()` with zero arguments is `none`. -/
theorem claim_C9_witness :
    check_cfg envOsLinux9 (.metaList (some "not")
      [.metaList (some "not")
        [.metaNameValue (some "target_os") (.str "linux")]]) = some true ∧
    check_cfg envOsLinux9 (.metaList (some "not") []) = none :=
  ⟨(claim_C9 envOsLinux9 (some "target_os") (.str "linux") true (by decide)).1,
   (claim_C9 envOsLinux9 (some "target_os") (.str "linux") true (by decide)).2
     [] (by decide)⟩

/-- C10: a `name = "value"` leaf with a string literal is always
evaluable, and a missing configuration key makes it `some false`, not
`none`. -/
theorem claim_C10 (env : Env) (name lit : String) :
    (check_cfg env (.metaNameValue (some name) (.str lit))).isSome = true ∧
    (env ("CARGO_CFG_" ++ name) = none →
       check_cfg env (.metaNameValue (some name) (.str lit)) = some false) := by
  constructor
  · rfl
  · intro h
    show some (env ("CARGO_CFG_" ++ name) == some lit) = some false
    rw [h]
    rfl

/-- C10 witness: in the empty environment the leaf evaluates to
`some false`. -/
theorem claim_C10_witness :
    check_cfg envEmpty (.metaNameValue (some "target_os") (.str "linux")) =
      some false :=
  (claim_C10 envEmpty "target_os" "linux").2 rfl

theorem splitSubfeat_of_parts (s a b : String) (rest : List String)
    (h : splitSlash s = a :: b :: rest) : splitSubfeat s = some (a, b) := by
  simp [splitSubfeat, h]

theorem splitSubfeat_none_of_short (s : String)
    (h : (splitSlash s).length < 2) : splitSubfeat s = none := by
  cases hs : splitSlash s with
  | nil => simp [splitSubfeat, hs]
  | cons a t =>
      cases t with
      | nil => simp [splitSubfeat, hs]
      | cons b r => rw [hs] at h; simp at h; omega

theorem splitSubfeat_isSome_of_long (s : String)
    (h : 2 ≤ (splitSlash s).length) : (splitSubfeat s).isSome = true := by
  cases hs : splitSlash s with
  | nil => rw [hs] at h; simp at h
  | cons a t =>
      cases t with
      | nil => rw [hs] at h; simp at h
      | cons b r => simp [splitSubfeat, hs]

theorem addSubfeats_none_of_bad (subs : List String) (s : String)
    (hs : s ∈ subs) (hbad : splitSubfeat s = none) :
    ∀ df, addSubfeats df subs = none := by
  induction subs with
  | nil => cases hs
  | cons a t ih =>
      intro df
      rcases List.mem_cons.mp hs with rfl | hmem
      · simp [addSubfeats, hbad]
      · cases ha : splitSubfeat a with
        | none => simp [addSubfeats, ha]
        | some p =>
            obtain ⟨dep, f⟩ := p
            simp only [addSubfeats, ha]
            exact ih hmem _

theorem addSubfeats_isSome_of_good (subs : List String)
    (h : ∀ s ∈ subs, (splitSubfeat s).isSome = true) :
    ∀ df, (addSubfeats df subs).isSome = true := by
  induction subs with
  | nil => intro df; rfl
  | cons a t ih =>
      intro df
      have ha := h a (List.mem_cons_self a t)
      cases hsp : splitSubfeat a with
      | none => rw [hsp] at ha; simp at ha
      | some p =>
          obtain ⟨dep, f⟩ := p
          simp only [addSubfeats, hsp]
          exact ih (fun s hs => h s (List.mem_cons_of_mem a hs)) _

theorem buildDepFeatures_none_of_bad (env : Env)
    (feats : List (String × List String)) (fname s : String)
    (subs : List String) (hmem : (fname, subs) ∈ feats)
    (henv : (env ("CARGO_FEATURE_" ++ fname)).isSome = true)
    (hs : s ∈ subs) (hbad : splitSubfeat s = none) :
    ∀ df, buildDepFeatures env feats df = none := by
  induction feats with
  | nil => cases hmem
  | cons g t ih =>
      intro df
      rcases List.mem_cons.mp hmem with rfl | hmem'
      · simp only [buildDepFeatures, henv, if_true]
        rw [addSubfeats_none_of_bad subs s hs hbad df]
      · obtain ⟨gname, gsubs⟩ := g
        simp only [buildDepFeatures]
        by_cases he : (env ("CARGO_FEATURE_" ++ gname)).isSome = true
        · simp only [he, if_true]
          cases hadd : addSubfeats df gsubs with
          | none => rfl
          | some df' => exact ih hmem' df'
        · simp only [he, if_false]
          exact ih hmem' df

theorem buildDepFeatures_isSome_of_good (env : Env)
    (feats : List (String × List String))
    (h : ∀ fname subs, (fname, subs) ∈ feats →
       (env ("CARGO_FEATURE_" ++ fname)).isSome = true →
       ∀ s ∈ subs, (splitSubfeat s).isSome = true) :
    ∀ df, (buildDepFeatures env feats df).isSome = true := by
  induction feats with
  | nil => intro df; rfl
  | cons g t ih =>
      intro df
      obtain ⟨gname, gsubs⟩ := g
      simp only [buildDepFeatures]
      by_cases he : (env ("CARGO_FEATURE_" ++ gname)).isSome = true
      · simp only [he, if_true]
        have hgood := h gname gsubs (List.mem_cons_self _ _) he
        have hadd2 := addSubfeats_isSome_of_good gsubs (fun s hs => hgood s hs) df
        cases hadd : addSubfeats df gsubs with
        | none => rw [hadd] at hadd2; simp at hadd2
        | some df' =>
            exact ih (fun fn sb hm hv => h fn sb (List.mem_cons_of_mem _ hm) hv) df'
      · simp only [he, if_false]
        exact ih (fun fn sb hm hv => h fn sb (List.mem_cons_of_mem _ hm) hv) df

/-- C5 counterexample: the claim says a directive splitting into a
number of parts other than two aborts the map construction.  The
directive `a/b/c` splits into three parts, yet with its feature enabled
the construction succeeds, silently using the first two parts. -/
theorem claim_C5_cex :
    (splitSlash "a/b/c").length ≠ 2 ∧
    buildDepFeatures envFeatF [("f", ["a/b/c"])] [] = some [("a", ["b"])] := by
  decide

/-- C5 (amended): each directive of an enabled feature is split on the
separator and the first two parts are taken as dependency name and
feature name; a directive with fewer than two parts (no separator)
aborts the construction (unwrap failure), never a recoverable
continuation, while directives with two or more parts never abort. -/
theorem claim_C5 (env : Env) (feats : List (String × List String)) :
    (∀ s a b rest, splitSlash s = a :: b :: rest → splitSubfeat s = some (a, b)) ∧
    (∀ fname subs s df, (fname, subs) ∈ feats →
       (env ("CARGO_FEATURE_" ++ fname)).isSome = true →
       s ∈ subs → (splitSlash s).length < 2 →
       buildDepFeatures env feats df = none) ∧
    ((∀ fname subs, (fname, subs) ∈ feats →
        (env ("CARGO_FEATURE_" ++ fname)).isSome = true →
        ∀ s ∈ subs, 2 ≤ (splitSlash s).length) →
     ∀ df, (buildDepFeatures env feats df).isSome = true) := by
  refine ⟨fun s a b rest h => splitSubfeat_of_parts s a b rest h,
          fun fname subs s df hmem henv hs hlen => ?_,
          fun hgood df => ?_⟩
  · exact buildDepFeatures_none_of_bad env feats fname s subs hmem henv hs
      (splitSubfeat_none_of_short s hlen) df
  · exact buildDepFeatures_isSome_of_good env feats
      (fun fn sb hm hv s hs => splitSubfeat_isSome_of_long s (hgood fn sb hm hv s hs)) df

/-- C5 witness: a directive without a separator aborts the construction
once its feature is enabled. -/
theorem claim_C5_witness :
    buildDepFeatures envFeatF [("f", ["x"])] [] = none :=
  (claim_C5 envFeatF [("f", ["x"])]).2.1 "f" ["x"] "x" []
    (by decide) (by decide) (by decide) (by decide)

/-- C6: for a detailed declaration resolving to a git source (no
version, no path, git url present) that is not omitted by the optional
check, the revision selector prefers an explicit revision, then the tag,
then the branch, and defaults to the branch head only when none are
present; in particular a tag beats a branch. -/
theorem claim_C6 (env : Env) (df : List (String × List String))
    (name url : String) (d : DependencyDetail)
    (hv : d.version = none) (hp : d.path = none) (hg : d.git = some url)
    (hopt : d.optional = false ∨ (env ("CARGO_FEATURE_" ++ name)).isSome = true) :
    (∀ r, d.rev = some r →
       (get_activedep env df name (.Detailed d)).map ActiveDependency.source =
         some (.Git url (.Revision r))) ∧
    (∀ t, d.rev = none → d.tag = some t →
       (get_activedep env df name (.Detailed d)).map ActiveDependency.source =
         some (.Git url (.Tag t))) ∧
    (∀ b, d.rev = none → d.tag = none → d.branch = some b →
       (get_activedep env df name (.Detailed d)).map ActiveDependency.source =
         some (.Git url (.Branch b))) ∧
    (d.rev = none → d.tag = none → d.branch = none →
       (get_activedep env df name (.Detailed d)).map ActiveDependency.source =
         some (.Git url .Master)) := by
  have hcond : (d.optional && (env ("CARGO_FEATURE_" ++ name)).isNone) = false := by
    rcases hopt with h | h
    · simp [h]
    · cases henv : env ("CARGO_FEATURE_" ++ name) <;> simp_all
  refine ⟨fun r hr => ?_, fun t hr ht => ?_, fun b hr ht hb => ?_,
          fun hr ht hb => ?_⟩ <;>
    simp [get_activedep, hcond, hv, hp, hg, hr] <;> simp_all

/-- C6 witness: with both a tag and a branch and no revision, the
resolved selector is the tag. -/
theorem claim_C6_witness :
    (get_activedep envNoFeat [] "dep" (.Detailed dGitTagBranch)).map
        ActiveDependency.source = some (.Git "u" (.Tag "t")) :=
  (claim_C6 envNoFeat [] "dep" "u" dGitTagBranch rfl rfl rfl
      (Or.inl rfl)).2.1 "t" rfl rfl

theorem alookup_ainsert_self {β : Type} (rv : List (String × β)) (k : String) (v : β) :
    alookup k (ainsert rv k v) = some v := by
  induction rv with
  | nil => simp [ainsert, alookup]
  | cons p rest ih =>
      obtain ⟨k', v'⟩ := p
      by_cases h : k' = k
      · simp [ainsert, h, alookup]
      · simp [ainsert, h, alookup, ih]

theorem alookup_ainsert_ne {β : Type} (rv : List (String × β)) (k k' : String)
    (v : β) (h : k' ≠ k) :
    alookup k (ainsert rv k' v) = alookup k rv := by
  induction rv with
  | nil => simp [ainsert, alookup, h]
  | cons p rest ih =>
      obtain ⟨a, b⟩ := p
      by_cases ha : a = k'
      · simp [ainsert, ha, alookup, h]
      · simp only [ainsert, ha, if_false, alookup]
        by_cases hak : a = k
        · simp [hak]
        · simp [hak, ih]

theorem mem_keys_ainsert {β : Type} (rv : List (String × β)) (k x : String) (v : β) :
    x ∈ (ainsert rv k v).map Prod.fst ↔ x ∈ rv.map Prod.fst ∨ x = k := by
  induction rv with
  | nil => simp [ainsert]
  | cons p rest ih =>
      obtain ⟨a, b⟩ := p
      by_cases h : a = k
      · subst h
        simp [ainsert]
        tauto
      · simp [ainsert, h, ih]
        tauto

theorem nodup_keys_ainsert {β : Type} (rv : List (String × β)) (k : String) (v : β)
    (h : (rv.map Prod.fst).Nodup) :
    ((ainsert rv k v).map Prod.fst).Nodup := by
  induction rv with
  | nil => simp [ainsert]
  | cons p rest ih =>
      obtain ⟨a, b⟩ := p
      simp only [List.map_cons, List.nodup_cons] at h
      by_cases hak : a = k
      · subst hak
        simpa [ainsert] using h
      · simp only [ainsert, hak, if_false, List.map_cons, List.nodup_cons]
        refine ⟨fun hmem => ?_, ih h.2⟩
        rcases (mem_keys_ainsert rest k a v).mp hmem with hm | hm
        · exact h.1 hm
        · exact hak hm

theorem processDeps_cons (env : Env) (df : List (String × List String))
    (p : String × Dependency) (deps : List (String × Dependency))
    (rv : List (String × ActiveDependency)) :
    processDeps env df (p :: deps) rv =
      processDeps env df deps
        (match get_activedep env df p.1 p.2 with
         | some ad => ainsert rv p.1 ad
         | none => rv) :=
  rfl

theorem processDeps_append (env : Env) (df : List (String × List String))
    (l₁ l₂ : List (String × Dependency)) (rv : List (String × ActiveDependency)) :
    processDeps env df (l₁ ++ l₂) rv =
      processDeps env df l₂ (processDeps env df l₁ rv) := by
  simp [processDeps, List.foldl_append]

theorem alookup_processDeps_skip (env : Env) (df : List (String × List String))
    (name : String) (deps : List (String × Dependency))
    (rv : List (String × ActiveDependency))
    (h : ∀ p ∈ deps, p.1 = name → get_activedep env df p.1 p.2 = none) :
    alookup name (processDeps env df deps rv) = alookup name rv := by
  induction deps generalizing rv with
  | nil => rfl
  | cons p rest ih =>
      cases hga : get_activedep env df p.1 p.2 with
      | none =>
          simp only [processDeps_cons, hga]
          exact ih rv (fun q hq hqn => h q (List.mem_cons_of_mem p hq) hqn)
      | some ad =>
          have hp : p.1 ≠ name := by
            intro hc
            rw [h p (List.mem_cons_self p rest) hc] at hga
            cases hga
          simp only [processDeps_cons, hga]
          rw [ih _ (fun q hq hqn => h q (List.mem_cons_of_mem p hq) hqn)]
          exact alookup_ainsert_ne rv name p.1 ad hp

theorem nodup_keys_processDeps (env : Env) (df : List (String × List String))
    (deps : List (String × Dependency)) (rv : List (String × ActiveDependency))
    (h : (rv.map Prod.fst).Nodup) :
    ((processDeps env df deps rv).map Prod.fst).Nodup := by
  induction deps generalizing rv with
  | nil => exact h
  | cons p rest ih =>
      cases hga : get_activedep env df p.1 p.2 with
      | none => simp only [processDeps_cons, hga]; exact ih rv h
      | some ad =>
          simp only [processDeps_cons, hga]
          exact ih _ (nodup_keys_ainsert rv p.1 ad h)

theorem processTargets_append (env : Env) (parse : String → Option MetaListData)
    (df : List (String × List String)) (ct : String)
    (l₁ l₂ : List (String × List (String × Dependency)))
    (rv : List (String × ActiveDependency)) :
    processTargets env parse df ct (l₁ ++ l₂) rv =
      match processTargets env parse df ct l₁ rv with
      | none => none
      | some rv' => processTargets env parse df ct l₂ rv' := by
  induction l₁ generalizing rv with
  | nil => rfl
  | cons g t ih =>
      obtain ⟨gn, gd⟩ := g
      simp only [List.cons_append, processTargets]
      cases targetGroupActive env parse ct gn with
      | none => rfl
      | some active => exact ih _

theorem nodup_keys_processTargets (env : Env) (parse : String → Option MetaListData)
    (df : List (String × List String)) (ct : String)
    (targets : List (String × List (String × Dependency)))
    (rv rv' : List (String × ActiveDependency))
    (h : (rv.map Prod.fst).Nodup)
    (hres : processTargets env parse df ct targets rv = some rv') :
    (rv'.map Prod.fst).Nodup := by
  induction targets generalizing rv with
  | nil =>
      simp only [processTargets] at hres
      cases hres
      exact h
  | cons g t ih =>
      obtain ⟨gn, gd⟩ := g
      simp only [processTargets] at hres
      cases hact : targetGroupActive env parse ct gn with
      | none => rw [hact] at hres; cases hres
      | some active =>
          rw [hact] at hres
          cases active with
          | true => exact ih _ (nodup_keys_processDeps env df gd rv h) hres
          | false => exact ih _ h hres

theorem alookup_processTargets_skip (env : Env) (parse : String → Option MetaListData)
    (df : List (String × List String)) (ct name : String)
    (targets : List (String × List (String × Dependency)))
    (rv rv' : List (String × ActiveDependency))
    (h : ∀ g ∈ targets, ∀ p ∈ g.2, p.1 = name → get_activedep env df p.1 p.2 = none)
    (hres : processTargets env parse df ct targets rv = some rv') :
    alookup name rv' = alookup name rv := by
  induction targets generalizing rv with
  | nil =>
      simp only [processTargets] at hres
      cases hres
      rfl
  | cons g t ih =>
      obtain ⟨gn, gd⟩ := g
      simp only [processTargets] at hres
      cases hact : targetGroupActive env parse ct gn with
      | none => rw [hact] at hres; cases hres
      | some active =>
          rw [hact] at hres
          cases active with
          | true =>
              rw [ih _ (fun g' hg' => h g' (List.mem_cons_of_mem _ hg')) hres]
              exact alookup_processDeps_skip env df name gd rv
                (fun p hp => h (gn, gd) (List.mem_cons_self _ _) p hp)
          | false => exact ih _ (fun g' hg' => h g' (List.mem_cons_of_mem _ hg')) hres

theorem get_activedep_none_of_disabled (env : Env)
    (df : List (String × List String)) (name : String) (p : String × Dependency)
    (hdecl : isDisabledOptionalDecl name p = true)
    (henv : env ("CARGO_FEATURE_" ++ name) = none)
    (hn : p.1 = name) :
    get_activedep env df p.1 p.2 = none := by
  rw [hn]
  unfold isDisabledOptionalDecl at hdecl
  rw [hn] at hdecl
  simp only [bne_self_eq_false, Bool.false_or] at hdecl
  cases hp : p.2 with
  | Simple v => rw [hp] at hdecl; simp at hdecl
  | Inherited i =>
      rw [hp] at hdecl
      simp only at hdecl
      simp [get_activedep, hdecl, henv]
  | Detailed d =>
      rw [hp] at hdecl
      simp only at hdecl
      simp [get_activedep, hdecl, henv]

/-- C1: an optional `Detailed` or `Inherited` declaration whose enabling
entry `CARGO_FEATURE_<name>` is absent from the environment yields no
record, and — when every declaration of the name in the manifest is such
— the name is entirely absent from the mapping `enumerate` returns; when
the enabling entry is present, a record is produced. -/
theorem claim_C1 (env : Env) (parse : String → Option MetaListData)
    (name : String) (d : DependencyDetail) (i : InheritedDependencyDetail)
    (m : Manifest) (rv : List (String × ActiveDependency))
    (hd : d.optional = true) (hi : i.optional = true) :
    (env ("CARGO_FEATURE_" ++ name) = none →
       (∀ df, get_activedep env df name (.Detailed d) = none ∧
              get_activedep env df name (.Inherited i) = none) ∧
       ((∀ p ∈ m.dependencies, isDisabledOptionalDecl name p = true) →
        (∀ g ∈ m.target, ∀ p ∈ g.2, isDisabledOptionalDecl name p = true) →
        enumerate env parse m = some rv →
        alookup name rv = none)) ∧
    ((env ("CARGO_FEATURE_" ++ name)).isSome = true →
       ∀ df, (get_activedep env df name (.Detailed d)).isSome = true ∧
             (get_activedep env df name (.Inherited i)).isSome = true) := by
  constructor
  · intro henv
    constructor
    · intro df
      constructor
      · simp [get_activedep, hd, henv]
      · simp [get_activedep, hi, henv]
    · intro hdeps htargets henum
      cases hdf : buildDepFeatures env m.features [] with
      | none => rw [enumerate, hdf] at henum; cases henum
      | some df =>
          rw [enumerate, hdf] at henum
          cases hT : env "TARGET" with
          | none => rw [hT] at henum; cases henum
          | some ct =>
              rw [hT] at henum
              rw [alookup_processTargets_skip env parse df ct name m.target _ rv
                    (fun g hg p hp hpn =>
                       get_activedep_none_of_disabled env df name p
                         (htargets g hg p hp) henv hpn) henum]
              rw [alookup_processDeps_skip env df name m.dependencies []
                    (fun p hp hpn =>
                       get_activedep_none_of_disabled env df name p
                         (hdeps p hp) henv hpn)]
              rfl
  · intro henv df
    constructor
    · simp only [get_activedep]
      cases he : env ("CARGO_FEATURE_" ++ name) with
      | none => rw [he] at henv; simp at henv
      | some v => simp [he]
    · simp only [get_activedep]
      cases he : env ("CARGO_FEATURE_" ++ name) with
      | none => rw [he] at henv; simp at henv
      | some v => simp [he]

/-- C1 witness: the optional dependency `opt`, declared both
unconditionally (`Detailed`) and in the active target group `t`
(`Inherited`), is entirely absent from the enumeration result when no
enabling entry is set; with the enabling entry set, `get_activedep`
produces a record. -/
theorem claim_C1_witness :
    get_activedep envTargetOnly [] "opt" (.Detailed dOpt) = none ∧
    alookup "opt" ([] : List (String × ActiveDependency)) = none ∧
    (get_activedep envFeatOpt [] "opt" (.Detailed dOpt)).isSome = true :=
  ⟨((claim_C1 envTargetOnly parseNone "opt" dOpt iOpt mOptOnly [] rfl rfl).1
      rfl).1 [] |>.1,
   ((claim_C1 envTargetOnly parseNone "opt" dOpt iOpt mOptOnly [] rfl rfl).1
      rfl).2 (by decide) (by decide) (by decide),
   ((claim_C1 envFeatOpt parseNone "opt" dOpt iOpt mOptOnly [] rfl rfl).2
      (by decide) []).1⟩

/-- C3: the mapping returned by `enumerate` has pairwise-distinct keys,
and a name declared both in the unconditional dependency set and (last)
in an active conditional-target group ends up mapped to the record built
from the group's declaration: conditional entries, processed after the
unconditional ones, overwrite them. -/
theorem claim_C3 (env : Env) (parse : String → Option MetaListData)
    (m : Manifest) (rv : List (String × ActiveDependency)) (name : String)
    (du dc : Dependency) (ad : ActiveDependency) (gname : String)
    (gdeps gpre gpost : List (String × Dependency))
    (ts : List (String × List (String × Dependency)))
    (df : List (String × List String)) (ct : String)
    (henum : enumerate env parse m = some rv)
    (hdf : buildDepFeatures env m.features [] = some df)
    (hct : env "TARGET" = some ct)
    (hu : (name, du) ∈ m.dependencies)
    (htgt : m.target = ts ++ [(gname, gdeps)])
    (hact : targetGroupActive env parse ct gname = some true)
    (hg : gdeps = gpre ++ (name, dc) :: gpost)
    (hpost : ∀ p ∈ gpost, p.1 ≠ name)
    (had : get_activedep env df name dc = some ad) :
    (rv.map Prod.fst).Nodup ∧ alookup name rv = some ad := by
  simp only [enumerate, hdf, hct] at henum
  constructor
  · exact nodup_keys_processTargets env parse df ct m.target _ rv
      (nodup_keys_processDeps env df m.dependencies [] (by simp)) henum
  · rw [htgt, processTargets_append] at henum
    cases h1 : processTargets env parse df ct ts
        (processDeps env df m.dependencies []) with
    | none => rw [h1] at henum; cases henum
    | some rv₁ =>
        rw [h1] at henum
        simp only [processTargets, hact] at henum
        cases henum
        simp only [if_true]
        rw [hg, processDeps_append, processDeps_cons]
        simp only [had]
        rw [alookup_processDeps_skip env df name gpost _
              (fun p hp hpn => absurd hpn (hpost p hp))]
        exact alookup_ainsert_self _ name ad

/-- C3 witness: `foo` is declared unconditionally as version 1.0 and in
the active literal target group `tgt` as version 2.0; the result maps
`foo` to the 2.0 record, with distinct keys. -/
theorem claim_C3_witness :
    (([("foo", (⟨.CratesIo "2.0", true, []⟩ : ActiveDependency))].map
        Prod.fst).Nodup) ∧
    alookup "foo" [("foo", (⟨.CratesIo "2.0", true, []⟩ : ActiveDependency))] =
      some ⟨.CratesIo "2.0", true, []⟩ :=
  claim_C3 envTargetTgt parseNone mOverwrite
    [("foo", ⟨.CratesIo "2.0", true, []⟩)] "foo"
    (.Simple "1.0") (.Simple "2.0") ⟨.CratesIo "2.0", true, []⟩
    "tgt" [("foo", .Simple "2.0")] [] [] [] [] "tgt"
    (by decide) (by decide) (by decide) (by decide) rfl (by decide) rfl
    (by decide) (by decide)

end MyDeps
